import Mathlib

/-!
Shallow embedding of the SR-Rcon client (the `Rcon` class of this repository):
the packet codec (`_encodePacket` / `_decodePacket`), the frame reassembler
(`_decodeData`), the response dispatcher (`_socketOnData`), the write path
(`_write`), and the connect / close handlers.  Bytes are modelled as natural
numbers below 256; JS strings are modelled by their byte sequences, and JS
buffers by byte lists.  Machine integers read and written by
`readInt32LE` / `writeInt32LE` are modelled as `Int` with explicit reduction
modulo 2^32 and a twos-complement reinterpretation.
-/

namespace SquadRcon

abbrev Byte := Nat

/-- Little-endian byte image of a 32-bit integer, mirroring
`Buffer.writeInt32LE`: the value is reduced modulo 2^32 and split into four
bytes, least significant first. -/
def int32ToBytesLE (i : Int) : List Byte :=
  let n : Nat := (i % 4294967296).toNat
  [n % 256, n / 256 % 256, n / 65536 % 256, n / 16777216 % 256]

/-- `Buffer.readInt32LE` at offset 0: assemble the first four bytes little
endian and reinterpret as a signed 32-bit value (missing bytes read as 0;
the JS code never reads past the checked length). -/
def readInt32LE (bs : List Byte) : Int :=
  let n : Nat :=
    bs.getD 0 0 + 256 * bs.getD 1 0 + 65536 * bs.getD 2 0 + 16777216 * bs.getD 3 0
  if n < 2147483648 then (n : Int) else (n : Int) - 4294967296

/-- A decoded RCON frame, exactly the object literal built by `_decodePacket`. -/
structure DecodedPacket where
  size : Int
  id : Int
  type : Int
  body : List Byte
  deriving DecidableEq

/-- `_decodePacket`: the three little-endian int32 fields at offsets 0 / 4 / 8,
and the body `packet.toString(encoding, 12, packet.byteLength - 2)`, i.e. the
bytes from offset 12 up to (excluding) the two terminator bytes; both bounds
clamp exactly as the Node `toString` method does. -/
def decodePacket (packet : List Byte) : DecodedPacket :=
  { size := readInt32LE packet
    id := readInt32LE (packet.drop 4)
    type := readInt32LE (packet.drop 8)
    body := (packet.drop 12).take (packet.length - 14) }

/-- `_encodePacket`: allocate `byteLength(body) + 14` bytes and write
`int32 (size - 4) | int32 id | int32 type | body | int16 0`. -/
def encodePacket (type id : Int) (body : List Byte) : List Byte :=
  int32ToBytesLE ((body.length : Int) + 10) ++
    (int32ToBytesLE id ++ (int32ToBytesLE type ++ (body ++ [0, 0])))

/-- The 7-byte sentinel body of the known broken trailing packet:
`"\x00\x00\x00\x01\x00\x00\x00"`. -/
def quirkPattern : List Byte := [0, 0, 0, 1, 0, 0, 0]

/-- The `while` loop of `_decodeData`, with explicit fuel bounding the number
of iterations.  Each iteration of interest consumes at least four bytes (the
quirk path consumes 21, a normal extraction consumes `size + 4` with
`size ≥ 0`), so fuel `buffer.length + 1` is always sufficient for the inputs
considered here; the negative-size regime, where the JS loop would not
terminate, is outside every property below. -/
def decodeLoop : Nat → List Byte → List (List Byte) × List Byte
  | 0, buf => ([], buf)
  | fuel + 1, buf =>
    if 4 ≤ buf.length then
      let size := readInt32LE buf
      let packetSize := size + 4
      if size = 10 ∧ 17 ≤ buf.length ∧ (decodePacket (buf.take 21)).body = quirkPattern then
        decodeLoop fuel (buf.drop 21)
      else if (buf.length : Int) < packetSize then
        ([], buf)
      else
        let packet := buf.take packetSize.toNat
        let rec_result := decodeLoop fuel (buf.drop packetSize.toNat)
        (packet :: rec_result.1, rec_result.2)
    else ([], buf)

/-- `_decodeData`: append the new chunk to the pending buffer, then run the
extraction loop.  Returns the extracted packets and the leftover buffer
(the new `this._incomingData`). -/
def decodeData (pending data : List Byte) : List (List Byte) × List Byte :=
  let buf := pending ++ data
  decodeLoop (buf.length + 1) buf

/-- Feed a sequence of chunks to the reassembler in order, starting from a
given pending buffer, collecting all extracted packets. -/
def feedAll (st : List Byte) : List (List Byte) → List (List Byte) × List Byte
  | [] => ([], st)
  | c :: cs =>
    let step := decodeData st c
    let rest := feedAll step.2 cs
    (step.1 ++ rest.1, rest.2)

/-- The closures pushed by `_write` onto `_responseCallbackQueue`: the no-op
absorber pushed before the auth completion, the auth completion itself, and a
command completion (which emits `response` with its argument). -/
inductive Completion
  | noop
  | authCb
  | cmdCb
  deriving DecidableEq

/-- The kind of JS value a completion may be invoked with.  The dispatcher in
`_socketOnData` always passes the joined fragment string, but the auth
completion is written as if it received a decoded packet object, so the model
keeps both shapes. -/
inductive JsValue
  | str (s : List Byte)
  | packet (p : DecodedPacket)
  deriving DecidableEq

/-- JS property access `v.id`: a decoded-packet object carries an `id` field,
while on a string the access yields `undefined`, modelled as `none`. -/
def jsId : JsValue → Option Int
  | .packet p => some p.id
  | .str _ => none

/-- Events emitted through the `EventEmitter` interface of the client. -/
inductive Event
  | connectEv
  | authedEv
  | chatEv (body : List Byte)
  | responseEv (body : JsValue)
  | errorEv (msg : String)
  deriving DecidableEq

/-- The mutable fields of the `Rcon` instance relevant to the protocol logic. -/
structure RconState where
  incomingData : List Byte
  incomingResponse : List DecodedPacket
  responseCallbackQueue : List Completion
  connected : Bool
  autoReconnect : Bool
  deriving DecidableEq

/-- The field values installed by the constructor. -/
def initialState : RconState :=
  { incomingData := []
    incomingResponse := []
    responseCallbackQueue := []
    connected := false
    autoReconnect := false }

/-- Invoke one queued completion with argument `v`, returning the updated
state and the emitted events.  The auth completion compares `v.id` against
`-1`; on any other outcome it sets the auto-reconnect flag and emits
`authed`. -/
def applyCompletion : Completion → JsValue → RconState → RconState × List Event
  | .noop, _, st => (st, [])
  | .authCb, v, st =>
    if jsId v = some (-1) then (st, [.errorEv ("Authentication failed.")])
    else ({ st with autoReconnect := true }, [.authedEv])
  | .cmdCb, v, st => (st, [.responseEv v])

/-- `Array.prototype.join()` with no argument, as used on the fragment
bodies: elements joined with the default separator `","` (byte 44). -/
def joinBodies (bodies : List (List Byte)) : List Byte :=
  List.intercalate [44] bodies

/-- Dispatch of one decoded packet, i.e. the `switch` body of
`_socketOnData`.  `RESPONSE_VALUE = 0` and `RESPONSE_AUTH = 2` frames are
routed by `id`: `MID = 1` accumulates, `END = 2` pops the callback queue and
invokes the popped entry with the joined bodies; `CHAT_VALUE = 1` frames emit
`chat` immediately.  Popping an empty queue makes the JS code call
`undefined`, which throws; this is modelled as `Except.error`. -/
def processPacket (st : RconState) (p : DecodedPacket) :
    Except String (RconState × List Event) :=
  if p.type = 0 ∨ p.type = 2 then
    if p.id = 1 then
      .ok ({ st with incomingResponse := st.incomingResponse ++ [p] }, [])
    else if p.id = 2 then
      match st.responseCallbackQueue with
      | [] => .error ("TypeError: this._responseCallbackQueue.shift() is undefined")
      | c :: queueRest =>
        let joined := joinBodies (st.incomingResponse.map (fun q => q.body))
        let applied :=
          applyCompletion c (.str joined) { st with responseCallbackQueue := queueRest }
        .ok ({ applied.1 with incomingResponse := [] }, applied.2)
    else
      .ok (st, [])
  else if p.type = 1 then
    .ok (st, [.chatEv p.body])
  else
    .ok (st, [])

/-- The `for` loop of `_socketOnData` over the decoded packets. -/
def processPackets (st : RconState) :
    List DecodedPacket → Except String (RconState × List Event)
  | [] => .ok (st, [])
  | p :: ps =>
    match processPacket st p with
    | .error e => .error e
    | .ok r1 =>
      match processPackets r1.1 ps with
      | .error e => .error e
      | .ok r2 => .ok (r2.1, r1.2 ++ r2.2)

/-- `_socketOnData`: reassemble, then dispatch every extracted packet. -/
def socketOnData (st : RconState) (data : List Byte) :
    Except String (RconState × List Event) :=
  let step := decodeData st.incomingData data
  processPackets { st with incomingData := step.2 } (step.1.map decodePacket)

/-- Result of one `_write` call: the updated state, the emitted events and
the byte strings written to the socket, in order. -/
structure WriteResult where
  state : RconState
  events : List Event
  writes : List (List Byte)
  deriving DecidableEq

/-- `_write`: reject when not connected or not writable, encode the packet
(`MID` id for commands, `END` for auth), reject oversize packets before any
write or queue change, then push the completion(s) and write the packet
(commands are followed by the empty `END` echo packet). -/
def write (maximumPacketSize : Int) (st : RconState) (writable : Bool)
    (type : Int) (body : List Byte) : WriteResult :=
  if st.connected = false then
    ⟨st, [.errorEv ("Not connected.")], []⟩
  else if writable = false then
    ⟨st, [.errorEv ("Unable to write to socket.")], []⟩
  else if maximumPacketSize <
      ((encodePacket type (if type ≠ 3 then 1 else 2) body).length : Int) then
    ⟨st, [.errorEv ("Packet too long.")], []⟩
  else if type = 3 then
    ⟨{ st with responseCallbackQueue := st.responseCallbackQueue ++ [.noop, .authCb] },
      [], [encodePacket type (if type ≠ 3 then 1 else 2) body]⟩
  else
    ⟨{ st with responseCallbackQueue := st.responseCallbackQueue ++ [.cmdCb] },
      [], [encodePacket type (if type ≠ 3 then 1 else 2) body, encodePacket type 2 []]⟩

/-- `execute(command)`: `_write(PacketType.COMMAND, command)` with
`COMMAND = 2`. -/
def execute (maximumPacketSize : Int) (st : RconState) (writable : Bool)
    (command : List Byte) : WriteResult :=
  write maximumPacketSize st writable 2 command

/-- `_socketOnClose`: clear the connected flag.  When the auto-reconnect flag
is set, `connect` is scheduled after the delay; note that no buffer, queue or
accumulator field is touched. -/
def socketOnClose (st : RconState) : RconState :=
  { st with connected := false }

/-- The `onConnect` handler inside `connect()`: emit `connect`, set the
connected flag, and issue the AUTH write (`AUTH = 3`) with the stored
password. -/
def connectOnConnect (maximumPacketSize : Int) (st : RconState) (writable : Bool)
    (password : List Byte) : WriteResult :=
  let st1 := { st with connected := true }
  let w := write maximumPacketSize st1 writable 3 password
  ⟨w.state, .connectEv :: w.events, w.writes⟩

/-- A scheduled reconnect after a connection drop: the close handler followed
by a successful TCP connect and its AUTH write. -/
def reconnectAfterClose (maximumPacketSize : Int) (st : RconState)
    (writable : Bool) (password : List Byte) : WriteResult :=
  connectOnConnect maximumPacketSize (socketOnClose st) writable password

/-- `Interleave l r t`: `t` is an order-preserving interleaving of `l` and
`r`. -/
inductive Interleave : List DecodedPacket → List DecodedPacket → List DecodedPacket → Prop
  | nil : Interleave [] [] []
  | left {a : DecodedPacket} {l r t : List DecodedPacket} :
      Interleave l r t → Interleave (a :: l) r (a :: t)
  | right {a : DecodedPacket} {l r t : List DecodedPacket} :
      Interleave l r t → Interleave l (a :: r) (a :: t)

/-- Projection of the body of a `response` event. -/
def respBody : Event → Option (List Byte)
  | .responseEv (.str b) => some b
  | _ => none

/-- Projection of the body of a `chat` event. -/
def chatBody : Event → Option (List Byte)
  | .chatEv b => some b
  | _ => none

/-- A `MID`-tagged response fragment as decoded from the wire
(`RESPONSE_VALUE` type). -/
def midFrame (body : List Byte) : DecodedPacket :=
  ⟨(body.length : Int) + 10, 1, 0, body⟩

/-- The `END`-tagged empty response frame. -/
def endFrame : DecodedPacket :=
  ⟨10, 2, 0, []⟩

/-! ### Basic lemmas about the int32 codec -/

theorem int32ToBytesLE_length (i : Int) : (int32ToBytesLE i).length = 4 := rfl

theorem readInt32LE_take (l : List Byte) : readInt32LE (l.take 4) = readInt32LE l :=
  match l with
  | [] => rfl
  | [_] => rfl
  | [_, _] => rfl
  | [_, _, _] => rfl
  | _ :: _ :: _ :: _ :: _ => rfl

theorem readInt32LE_int32_append (i : Int) (l : List Byte) :
    readInt32LE (int32ToBytesLE i ++ l) = readInt32LE (int32ToBytesLE i) := rfl

theorem drop_four_int32 (i : Int) (l : List Byte) :
    (int32ToBytesLE i ++ l).drop 4 = l := rfl

/-- Reading back a written little-endian int32 recovers the value whenever it
fits into a signed 32-bit integer. -/
theorem readInt32LE_int32ToBytesLE (i : Int) (h1 : -2147483648 ≤ i)
    (h2 : i < 2147483648) : readInt32LE (int32ToBytesLE i) = i := by
  have hmodnn : 0 ≤ i % 4294967296 := Int.emod_nonneg i (by norm_num)
  have hcast : ((i % 4294967296).toNat : Int) = i % 4294967296 :=
    Int.toNat_of_nonneg hmodnn
  have hmodlt : i % 4294967296 < 4294967296 :=
    Int.emod_lt_of_pos i (by norm_num)
  set m : Nat := (i % 4294967296).toNat with hm
  have hmlt : m < 4294967296 := by omega
  have hsum : m % 256 + 256 * (m / 256 % 256) + 65536 * (m / 65536 % 256) +
      16777216 * (m / 16777216 % 256) = m := by omega
  simp only [readInt32LE, int32ToBytesLE, List.getD_cons_zero, List.getD_cons_succ]
  rw [← hm, hsum]
  split
  · omega
  · omega

theorem encodePacket_length (type id : Int) (body : List Byte) :
    (encodePacket type id body).length = body.length + 14 := by
  simp [encodePacket, int32ToBytesLE]

/-- C4 round-trip core: decoding an encoded packet recovers the declared
size, id, type and body exactly. -/
theorem decodePacket_encodePacket (type id : Int) (body : List Byte)
    (hid1 : -2147483648 ≤ id) (hid2 : id < 2147483648)
    (hty1 : -2147483648 ≤ type) (hty2 : type < 2147483648)
    (hsz : (body.length : Int) + 10 < 2147483648) :
    decodePacket (encodePacket type id body) =
      ⟨(body.length : Int) + 10, id, type, body⟩ := by
  unfold decodePacket encodePacket
  have hsize : readInt32LE
      (int32ToBytesLE ((body.length : Int) + 10) ++
        (int32ToBytesLE id ++ (int32ToBytesLE type ++ (body ++ [0, 0])))) =
      (body.length : Int) + 10 := by
    rw [readInt32LE_int32_append, readInt32LE_int32ToBytesLE] <;> omega
  have hdrop4 : (int32ToBytesLE ((body.length : Int) + 10) ++
      (int32ToBytesLE id ++ (int32ToBytesLE type ++ (body ++ [0, 0])))).drop 4 =
      int32ToBytesLE id ++ (int32ToBytesLE type ++ (body ++ [0, 0])) :=
    drop_four_int32 _ _
  have hid : readInt32LE (int32ToBytesLE id ++ (int32ToBytesLE type ++ (body ++ [0, 0]))) =
      id := by
    rw [readInt32LE_int32_append, readInt32LE_int32ToBytesLE id hid1 hid2]
  have hty : readInt32LE (int32ToBytesLE type ++ (body ++ [0, 0])) = type := by
    rw [readInt32LE_int32_append, readInt32LE_int32ToBytesLE type hty1 hty2]
  have hdrop8 : (int32ToBytesLE ((body.length : Int) + 10) ++
      (int32ToBytesLE id ++ (int32ToBytesLE type ++ (body ++ [0, 0])))).drop 8 =
      int32ToBytesLE type ++ (body ++ [0, 0]) := rfl
  have hdrop12 : (int32ToBytesLE ((body.length : Int) + 10) ++
      (int32ToBytesLE id ++ (int32ToBytesLE type ++ (body ++ [0, 0])))).drop 12 =
      body ++ [0, 0] := rfl
  have hlen : (int32ToBytesLE ((body.length : Int) + 10) ++
      (int32ToBytesLE id ++ (int32ToBytesLE type ++ (body ++ [0, 0])))).length =
      body.length + 14 := encodePacket_length type id body
  rw [hdrop4, hid, hdrop8, hty, hdrop12, hlen, hsize]
  have htake : (body ++ [0, 0]).take (body.length + 14 - 14) = body := by
    simp
  rw [htake]

/-- Claim C4 — encode→decode round-trip: for every kind, packet id, and body
whose encoded packet is within the 4096-byte packet-size limit, decoding the
encoded packet returns a frame whose body equals the original body and whose
declared size equals `byteLength body + 10`, and the total bytes written equal
`declaredSize + 4`. -/
theorem rcon_encode_decode_roundtrip (type id : Int) (body : List Byte)
    (hid1 : -2147483648 ≤ id) (hid2 : id < 2147483648)
    (hty1 : -2147483648 ≤ type) (hty2 : type < 2147483648)
    (hmax : (encodePacket type id body).length ≤ 4096) :
    (decodePacket (encodePacket type id body)).body = body ∧
    (decodePacket (encodePacket type id body)).size = (body.length : Int) + 10 ∧
    (decodePacket (encodePacket type id body)).id = id ∧
    (decodePacket (encodePacket type id body)).type = type ∧
    (encodePacket type id body).length = (body.length + 10) + 4 := by
  have hlen := encodePacket_length type id body
  have hsz : (body.length : Int) + 10 < 2147483648 := by
    rw [hlen] at hmax
    omega
  have h := decodePacket_encodePacket type id body hid1 hid2 hty1 hty2 hsz
  rw [h]
  refine ⟨rfl, rfl, rfl, rfl, by omega⟩

/-- Witness for C4 at kind `COMMAND = 2`, id `MID = 1`, body `"hi"`. -/
theorem rcon_encode_decode_roundtrip_witness :
    (decodePacket (encodePacket 2 1 [104, 105])).body = [104, 105] ∧
    (decodePacket (encodePacket 2 1 [104, 105])).size = (([104, 105] : List Byte).length : Int) + 10 ∧
    (decodePacket (encodePacket 2 1 [104, 105])).id = 1 ∧
    (decodePacket (encodePacket 2 1 [104, 105])).type = 2 ∧
    (encodePacket 2 1 [104, 105]).length = (([104, 105] : List Byte).length + 10) + 4 :=
  rcon_encode_decode_roundtrip 2 1 [104, 105] (by norm_num) (by norm_num)
    (by norm_num) (by norm_num) (by decide)

/-- Equality of `Except` results is decidable for the payload types used
here. -/
instance : DecidableEq (Except String (RconState × List Event)) := fun a b =>
  match a, b with
  | .ok x, .ok y => if h : x = y then .isTrue (by rw [h]) else .isFalse (by
      intro hc
      exact h (Except.ok.inj hc))
  | .error x, .error y => if h : x = y then .isTrue (by rw [h]) else .isFalse (by
      intro hc
      exact h (Except.error.inj hc))
  | .ok _, .error _ => .isFalse (by intro hc; exact Except.noConfusion hc)
  | .error _, .ok _ => .isFalse (by intro hc; exact Except.noConfusion hc)

/-! ### Step lemmas for the extraction loop -/

/-- With fewer than four buffered bytes the loop waits for more data. -/
theorem decodeLoop_small (fuel : Nat) (buf : List Byte) (h : buf.length < 4) :
    decodeLoop fuel buf = ([], buf) := by
  cases fuel with
  | zero => rfl
  | succ n =>
    simp only [decodeLoop]
    rw [if_neg (by omega)]

/-- When the quirk probe matches, 21 bytes are discarded and the loop
restarts without emitting a frame. -/
theorem decodeLoop_quirk (fuel : Nat) (buf : List Byte)
    (hq : readInt32LE buf = 10 ∧ 17 ≤ buf.length ∧
      (decodePacket (buf.take 21)).body = quirkPattern) :
    decodeLoop (fuel + 1) buf = decodeLoop fuel (buf.drop 21) := by
  simp only [decodeLoop]
  rw [if_pos (by omega), if_pos hq]

/-- When the probe does not fire and the buffer is too short for the declared
packet, the loop suspends, keeping the buffer intact. -/
theorem decodeLoop_wait (fuel : Nat) (buf : List Byte)
    (hq : ¬(readInt32LE buf = 10 ∧ 17 ≤ buf.length ∧
      (decodePacket (buf.take 21)).body = quirkPattern))
    (hlt : (buf.length : Int) < readInt32LE buf + 4) :
    decodeLoop fuel buf = ([], buf) := by
  cases fuel with
  | zero => rfl
  | succ n =>
    simp only [decodeLoop]
    by_cases h4 : 4 ≤ buf.length
    · rw [if_pos h4, if_neg hq, if_pos hlt]
    · rw [if_neg h4]

/-- When the probe does not fire and a full packet is buffered, the loop
emits exactly the declared slice and continues on the remainder. -/
theorem decodeLoop_emit (fuel : Nat) (buf : List Byte)
    (h4 : 4 ≤ buf.length)
    (hq : ¬(readInt32LE buf = 10 ∧ 17 ≤ buf.length ∧
      (decodePacket (buf.take 21)).body = quirkPattern))
    (hge : readInt32LE buf + 4 ≤ (buf.length : Int)) :
    decodeLoop (fuel + 1) buf =
      (buf.take (readInt32LE buf + 4).toNat ::
          (decodeLoop fuel (buf.drop (readInt32LE buf + 4).toNat)).1,
        (decodeLoop fuel (buf.drop (readInt32LE buf + 4).toNat)).2) := by
  simp only [decodeLoop]
  rw [if_pos h4, if_neg hq, if_neg (by omega)]

/-! ### Oversize rejection, empty-queue dispatch, auth failure handling -/

/-- Claim C7 — oversize-command atomicity: for every command whose encoded
packet exceeds the configured maximum packet size, `execute` rejects it
before any socket write, surfaces a `Packet too long.` error, and leaves the
whole client state — in particular the pending-completion queue — exactly as
it was. -/
theorem rcon_oversize_rejection (maximumPacketSize : Int) (st : RconState)
    (command : List Byte) (hconn : st.connected = true)
    (hover : maximumPacketSize < ((encodePacket 2 1 command).length : Int)) :
    execute maximumPacketSize st true command =
      ⟨st, [.errorEv ("Packet too long.")], []⟩ := by
  unfold execute write
  rw [hconn]
  norm_num
  exact hover

/-- Witness for C7: maximum 4096 and a 4083-byte command, whose encoded
packet is 4097 bytes long. -/
theorem rcon_oversize_rejection_witness :
    execute 4096 { initialState with connected := true } true (List.replicate 4083 0) =
      ⟨{ initialState with connected := true }, [.errorEv ("Packet too long.")], []⟩ :=
  rcon_oversize_rejection 4096 { initialState with connected := true }
    (List.replicate 4083 0) rfl
    (by rw [encodePacket_length]; norm_num)

/-- Claim C9 — the response-dispatch path is not total: an `END`-tagged
`RESPONSE_VALUE` or `RESPONSE_AUTH` frame processed while the pending
completion queue is empty makes the dispatcher shift `undefined` off the
queue and call it, raising a type error (modelled as `Except.error`) instead
of ignoring the frame. -/
theorem rcon_end_frame_empty_queue_crash (st : RconState) (p : DecodedPacket)
    (hq : st.responseCallbackQueue = [])
    (ht : p.type = 0 ∨ p.type = 2) (hid : p.id = 2) :
    processPacket st p =
      .error ("TypeError: this._responseCallbackQueue.shift() is undefined") := by
  unfold processPacket
  rw [if_pos ht, hid, hq]
  norm_num

/-- Witness for C9: an empty-body `RESPONSE_VALUE` `END` frame against the
freshly constructed state. -/
theorem rcon_end_frame_empty_queue_crash_witness :
    processPacket initialState ⟨10, 2, 0, []⟩ =
      .error ("TypeError: this._responseCallbackQueue.shift() is undefined") :=
  rcon_end_frame_empty_queue_crash initialState ⟨10, 2, 0, []⟩ rfl (Or.inl rfl) rfl

/-- The client state right after a successful TCP connect and the AUTH
write: connected, not yet auto-reconnecting, with the no-op absorber and the
auth completion queued (password `"pw"`). -/
def stAfterAuthRequest : RconState :=
  (connectOnConnect 4096 initialState true [112, 119]).state

/-- Claim C1 — divergence evidence: the auth response frame with `id = -1`
(`RESPONSE_AUTH = 2`) falls through the `MID`/`END` switch of
`_socketOnData` and is silently dropped — no `error` event, no state change —
because completions are only invoked for `END`-tagged frames; the `END`-tagged
auth exchange then emits `authed` unconditionally (the `id === -1` test inside
the auth completion compares against the joined string, which has no `id`
field); and a subsequent `execute` is not rejected, since `_connected` was
already set at TCP connect time. -/
theorem rcon_auth_failure_frame_is_dropped :
    processPacket stAfterAuthRequest ⟨10, -1, 2, []⟩ = .ok (stAfterAuthRequest, []) ∧
    processPackets stAfterAuthRequest [⟨10, 2, 0, []⟩, ⟨10, 2, 2, []⟩] =
      .ok ({ stAfterAuthRequest with
              responseCallbackQueue := [], autoReconnect := true }, [.authedEv]) ∧
    (execute 4096 stAfterAuthRequest true [104, 105]).events = [] ∧
    (execute 4096 stAfterAuthRequest true [104, 105]).writes =
      [encodePacket 2 1 [104, 105], encodePacket 2 2 []] := by
  decide

/-! ### Quirk suppression and its cross-frame false positive -/

/-- A genuine 21-byte broken packet: declared size 10, arbitrary id and type
fields (zero here), body equal to the sentinel pattern, null terminator. -/
def quirkBuf : List Byte :=
  [10, 0, 0, 0, 0, 0, 0, 0, 0, 0, 0, 0, 0, 0, 0, 1, 0, 0, 0, 0, 0]

/-- Claim C3 — quirk suppression: feeding the reassembler a buffer holding a
21-byte packet whose declared size field is 10 and whose decoded probe body
equals the sentinel pattern yields zero frames and removes all 21 bytes;
and any buffer starting with a 10-size frame whose probe body does not match
the pattern has that frame emitted as a normal (14-byte) frame. -/
theorem rcon_quirk_suppression :
    (decodeData [] quirkBuf = ([], []) ∧ quirkBuf.length = 21 ∧
      readInt32LE quirkBuf = 10 ∧
      (decodePacket (quirkBuf.take 21)).body = quirkPattern) ∧
    (∀ f rest : List Byte, f.length = 14 → f.take 4 = [10, 0, 0, 0] →
      (decodePacket ((f ++ rest).take 21)).body ≠ quirkPattern →
      ((decodeData [] (f ++ rest)).1).head? = some f) := by
  constructor
  · decide
  · intro f rest hlen htake hprobe
    have h4 : (f ++ rest).take 4 = [10, 0, 0, 0] := by
      rw [List.take_append_eq_append_take, hlen, htake]
      norm_num
    have hsize : readInt32LE (f ++ rest) = 10 := by
      rw [← readInt32LE_take, h4]
      rfl
    have hblen : (f ++ rest).length = 14 + rest.length := by
      simp [hlen]
    have hq : ¬(readInt32LE (f ++ rest) = 10 ∧ 17 ≤ (f ++ rest).length ∧
        (decodePacket ((f ++ rest).take 21)).body = quirkPattern) := by
      intro h
      exact hprobe h.2.2
    have hge : readInt32LE (f ++ rest) + 4 ≤ ((f ++ rest).length : Int) := by
      rw [hsize, hblen]
      push_cast
      omega
    unfold decodeData
    simp only [List.nil_append]
    rw [decodeLoop_emit ((f ++ rest).length) (f ++ rest) (by omega) hq hge]
    rw [hsize]
    have h14 : ((10 : Int) + 4).toNat = 14 := rfl
    rw [h14]
    have htk : (f ++ rest).take 14 = f := by
      rw [List.take_append_eq_append_take, hlen]
      norm_num
      omega
    rw [htk]
    rfl

/-- Witness for the conditional part of C3: a plain empty-body frame with
declared size 10 and nothing after it. -/
theorem rcon_quirk_suppression_witness :
    ((decodeData [] ([10, 0, 0, 0, 2, 0, 0, 0, 0, 0, 0, 0, 0, 0] ++ [])).1).head? =
      some [10, 0, 0, 0, 2, 0, 0, 0, 0, 0, 0, 0, 0, 0] :=
  rcon_quirk_suppression.2 [10, 0, 0, 0, 2, 0, 0, 0, 0, 0, 0, 0, 0, 0] []
    (by decide) (by decide) (by decide)

set_option maxRecDepth 100000 in
/-- Claim C10 — the quirk probe matches across frame boundaries: a
well-formed empty-body frame (declared size 10) followed by a well-formed
frame whose first seven bytes complete the sentinel pattern in the 21-byte
probe window makes `feed` discard 21 bytes — the whole first frame plus the
first seven bytes of the second frame — and emit no frame at all. -/
theorem rcon_quirk_cross_frame_false_positive :
    (decodePacket ((encodePacket 0 2 [] ++
        encodePacket 2 0 (List.replicate 246 65)).take 21)).body = quirkPattern ∧
    decodeData [] (encodePacket 0 2 [] ++ encodePacket 2 0 (List.replicate 246 65)) =
      ([], (encodePacket 0 2 [] ++ encodePacket 2 0 (List.replicate 246 65)).drop 21) ∧
    (encodePacket 0 2 []).length = 14 ∧
    readInt32LE (encodePacket 0 2 []) = 10 ∧
    (encodePacket 0 2 [] ++ encodePacket 2 0 (List.replicate 246 65)).length = 274 := by
  decide

/-! ### Multi-fragment join -/

/-- Claim C2 — counterexample: with one pending command completion, the
`Mid` fragments `"foo"`, `"bar"`, `"baz"` followed by an `End` frame deliver
the string `"foo,bar,baz"` (bytes 44 are commas) to the completion, which is
not the claimed `"foobarbaz"`: `Array.prototype.join()` uses the default
`","` separator. -/
theorem rcon_multi_fragment_join_counterexample :
    processPackets
        { initialState with connected := true, responseCallbackQueue := [Completion.cmdCb] }
        [midFrame [102, 111, 111], midFrame [98, 97, 114], midFrame [98, 97, 122], endFrame] =
      .ok ({ initialState with connected := true },
        [.responseEv (.str [102, 111, 111, 44, 98, 97, 114, 44, 98, 97, 122])]) ∧
    ([102, 111, 111, 44, 98, 97, 114, 44, 98, 97, 122] : List Byte) ≠
      [102, 111, 111, 98, 97, 114, 98, 97, 122] := by
  decide

/-- Claim C2, amended — multi-fragment join with the separator the code uses: from
any state with an empty fragment accumulator and a command completion at the
head of the queue, the `Mid` fragments `"foo"`, `"bar"`, `"baz"` followed by
one `End` frame invoke the oldest pending completion with exactly
`"foo,bar,baz"` — the fragments joined in arrival order with the `","`
default separator of `Array.prototype.join`, excluding the empty body of the
`End` frame itself — and reset the accumulator. -/
theorem rcon_multi_fragment_join_comma (st : RconState) (rest : List Completion)
    (hacc : st.incomingResponse = [])
    (hq : st.responseCallbackQueue = .cmdCb :: rest) :
    processPackets st
        [midFrame [102, 111, 111], midFrame [98, 97, 114], midFrame [98, 97, 122], endFrame] =
      .ok ({ st with responseCallbackQueue := rest, incomingResponse := [] },
        [.responseEv (.str [102, 111, 111, 44, 98, 97, 114, 44, 98, 97, 122])]) := by
  obtain ⟨d, r, q, c, a⟩ := st
  simp only at hacc hq
  subst hacc hq
  rfl

/-- Witness for the amended C2 at the freshly constructed state with one
queued command completion. -/
theorem rcon_multi_fragment_join_comma_witness :
    processPackets
        { initialState with connected := true, responseCallbackQueue := [Completion.cmdCb] }
        [midFrame [102, 111, 111], midFrame [98, 97, 114], midFrame [98, 97, 122], endFrame] =
      .ok ({ { initialState with connected := true, responseCallbackQueue := [Completion.cmdCb] } with
              responseCallbackQueue := [], incomingResponse := [] },
        [.responseEv (.str [102, 111, 111, 44, 98, 97, 114, 44, 98, 97, 122])]) :=
  rcon_multi_fragment_join_comma
    { initialState with connected := true, responseCallbackQueue := [Completion.cmdCb] }
    [] rfl rfl

/-! ### State across reconnect -/

/-- A state in mid-conversation: leftover reassembly bytes, one accumulated
fragment, one pending completion, auto-reconnect armed. -/
def stBeforeDrop : RconState :=
  { incomingData := [7]
    incomingResponse := [⟨10, 1, 0, [120]⟩]
    responseCallbackQueue := [.cmdCb]
    connected := true
    autoReconnect := true }

/-- Claim C8 — counterexample: after a post-auth connection drop and the
scheduled reconnect, the reassembly buffer, the fragment accumulator and the
pending-completion queue all still hold their previous contents, and the
drop itself leaves the pending queue untouched — nothing is reconstructed
fresh. -/
theorem rcon_reconnect_state_counterexample :
    (reconnectAfterClose 4096 stBeforeDrop true []).state.incomingData ≠ [] ∧
    (reconnectAfterClose 4096 stBeforeDrop true []).state.incomingResponse ≠ [] ∧
    (reconnectAfterClose 4096 stBeforeDrop true []).state.responseCallbackQueue ≠
      [.noop, .authCb] ∧
    (socketOnClose stBeforeDrop).responseCallbackQueue = [.cmdCb] := by
  decide

/-- Claim C8, amended — state persists across reconnect: a post-auth drop
followed by the scheduled reconnect preserves the reassembly buffer, the
fragment accumulator and the pending-completion queue of the previous
connection (the AUTH write of the handshake merely appends its two
completions), and the drop itself discards nothing. -/
theorem rcon_reconnect_preserves_state (st : RconState) (password : List Byte)
    (hpw : password.length + 14 ≤ 4096) :
    (reconnectAfterClose 4096 st true password).state.incomingData = st.incomingData ∧
    (reconnectAfterClose 4096 st true password).state.incomingResponse =
      st.incomingResponse ∧
    (reconnectAfterClose 4096 st true password).state.responseCallbackQueue =
      st.responseCallbackQueue ++ [.noop, .authCb] ∧
    (socketOnClose st).responseCallbackQueue = st.responseCallbackQueue ∧
    (socketOnClose st).incomingData = st.incomingData ∧
    (socketOnClose st).incomingResponse = st.incomingResponse := by
  have hlt : ¬(4096 : Int) < ((encodePacket 3 2 password).length : Int) := by
    rw [encodePacket_length]
    push_cast
    omega
  simp [reconnectAfterClose, connectOnConnect, write, socketOnClose, hlt]

/-- Witness for the amended C8 at `stBeforeDrop` with password `"pw"`. -/
theorem rcon_reconnect_preserves_state_witness :
    (reconnectAfterClose 4096 stBeforeDrop true [112, 119]).state.incomingData =
      stBeforeDrop.incomingData ∧
    (reconnectAfterClose 4096 stBeforeDrop true [112, 119]).state.incomingResponse =
      stBeforeDrop.incomingResponse ∧
    (reconnectAfterClose 4096 stBeforeDrop true [112, 119]).state.responseCallbackQueue =
      stBeforeDrop.responseCallbackQueue ++ [.noop, .authCb] ∧
    (socketOnClose stBeforeDrop).responseCallbackQueue =
      stBeforeDrop.responseCallbackQueue ∧
    (socketOnClose stBeforeDrop).incomingData = stBeforeDrop.incomingData ∧
    (socketOnClose stBeforeDrop).incomingResponse = stBeforeDrop.incomingResponse :=
  rcon_reconnect_preserves_state stBeforeDrop [112, 119] (by norm_num)

/-! ### Chunk-boundary independence of reassembly -/

theorem decodeLoop_nilbuf (fuel : Nat) : decodeLoop fuel [] = ([], []) :=
  decodeLoop_small fuel [] (by simp)

theorem readInt32LE_of_append (p q : List Byte) (h4 : 4 ≤ p.length) :
    readInt32LE (p ++ q) = readInt32LE p := by
  rw [← readInt32LE_take (p ++ q), ← readInt32LE_take p]
  congr 1
  rw [List.take_append_eq_append_take]
  have h0 : 4 - p.length = 0 := by omega
  rw [h0]
  simp

theorem readInt32LE_encodePacket (type id : Int) (body : List Byte)
    (hsz : (body.length : Int) + 10 < 2147483648) :
    readInt32LE (encodePacket type id body) = (body.length : Int) + 10 := by
  unfold encodePacket
  rw [readInt32LE_int32_append, readInt32LE_int32ToBytesLE]
  · omega
  · exact hsz

/-- A strict byte-level front of a single well-formed encoded frame makes the
extraction loop suspend without emitting anything and without touching the
buffer. -/
theorem decodeLoop_strict_front (type id : Int) (body p q : List Byte)
    (hsz : (body.length : Int) + 10 < 2147483648)
    (hpq : p ++ q = encodePacket type id body) (hq : q ≠ []) (fuel : Nat) :
    decodeLoop fuel p = ([], p) := by
  by_cases hp4 : p.length < 4
  · exact decodeLoop_small fuel p hp4
  · have h4 : 4 ≤ p.length := by omega
    have hsizep : readInt32LE p = (body.length : Int) + 10 := by
      rw [← readInt32LE_of_append p q h4, hpq]
      exact readInt32LE_encodePacket type id body hsz
    have hlenpq : p.length + q.length = body.length + 14 := by
      have := congrArg List.length hpq
      simpa [encodePacket_length] using this
    have hqpos : 1 ≤ q.length := by
      cases q with
      | nil => exact absurd rfl hq
      | cons a l => simp
    have hplt : p.length < body.length + 14 := by omega
    apply decodeLoop_wait
    · intro h
      have hL : body.length = 0 := by
        have := h.1
        rw [hsizep] at this
        omega
      have : p.length < 14 := by omega
      omega
    · rw [hsizep]
      omega

/-- A buffer holding exactly one well-formed encoded frame yields exactly
that frame and an empty leftover buffer. -/
theorem decodeLoop_full (type id : Int) (body : List Byte)
    (hsz : (body.length : Int) + 10 < 2147483648) (fuel : Nat) :
    decodeLoop (fuel + 1) (encodePacket type id body) =
      ([encodePacket type id body], []) := by
  have hlen : (encodePacket type id body).length = body.length + 14 :=
    encodePacket_length type id body
  have hread : readInt32LE (encodePacket type id body) = (body.length : Int) + 10 :=
    readInt32LE_encodePacket type id body hsz
  rw [decodeLoop_emit fuel (encodePacket type id body) (by omega)
    (by
      intro h
      have hL : body.length = 0 := by
        have := h.1
        rw [hread] at this
        omega
      have := h.2.1
      omega)
    (by
      rw [hread, hlen]
      push_cast
      omega)]
  rw [hread]
  have htn : (((body.length : Int) + 10) + 4).toNat = body.length + 14 := by
    omega
  rw [htn, ← hlen, List.take_length, List.drop_length, decodeLoop_nilbuf]

/-- Feeding only empty chunks yields nothing. -/
theorem feedAll_empty_chunks (cs : List (List Byte)) (h : cs.flatten = []) :
    feedAll [] cs = ([], []) := by
  induction cs with
  | nil => rfl
  | cons c cs ih =>
    rw [List.flatten_cons] at h
    rcases List.append_eq_nil.mp h with ⟨hc, hcs⟩
    subst hc
    unfold feedAll decodeData
    simp only [List.append_nil, List.nil_append, List.length_nil]
    rw [decodeLoop_nilbuf, ih hcs]
    rfl

/-- Feeding any chunk sequence that completes one well-formed frame on top
of a strict front of it yields exactly that frame. -/
theorem feedAll_completes (type id : Int) (body : List Byte)
    (hsz : (body.length : Int) + 10 < 2147483648) :
    ∀ (chunks : List (List Byte)) (p : List Byte),
      p ++ chunks.flatten = encodePacket type id body →
      p ≠ encodePacket type id body →
      feedAll p chunks = ([encodePacket type id body], []) := by
  intro chunks
  induction chunks with
  | nil =>
    intro p hp hne
    rw [List.flatten_nil, List.append_nil] at hp
    exact absurd hp hne
  | cons c cs ih =>
    intro p hp hne
    rw [List.flatten_cons, ← List.append_assoc] at hp
    unfold feedAll decodeData
    by_cases hb : p ++ c = encodePacket type id body
    · have hcs : cs.flatten = [] := by
        rw [hb] at hp
        simpa using hp
      rw [hb]
      have hfull := decodeLoop_full type id body hsz (encodePacket type id body).length
      simp only [hfull, feedAll_empty_chunks cs hcs, List.append_nil]
    · have hjne : cs.flatten ≠ [] := by
        intro hnil
        rw [hnil, List.append_nil] at hp
        exact hb hp
      have hstuck := decodeLoop_strict_front type id body (p ++ c) cs.flatten hsz hp hjne
        ((p ++ c).length + 1)
      simp only [hstuck, List.nil_append]
      exact ih (p ++ c) hp hb

/-- Claim C6 — chunk-boundary independence: for every well-formed encoded
frame and every partition of its bytes into sub-chunks (including
byte-by-byte), feeding the sub-chunks in order to a fresh reassembler yields
exactly one extracted frame, identical to the one produced by feeding the
whole encoding in one call, with nothing left in the buffer; partial frames
persist across calls. -/
theorem rcon_chunk_boundary_independence (type id : Int) (body : List Byte)
    (chunks : List (List Byte))
    (hsz : (body.length : Int) + 10 < 2147483648)
    (hjoin : chunks.flatten = encodePacket type id body) :
    feedAll [] chunks = ([encodePacket type id body], []) ∧
    feedAll [] chunks = feedAll [] [encodePacket type id body] ∧
    (feedAll [] chunks).1.map decodePacket =
      [decodePacket (encodePacket type id body)] := by
  have hne : ([] : List Byte) ≠ encodePacket type id body := by
    intro h
    have := congrArg List.length h
    rw [encodePacket_length] at this
    simp at this
  have h1 : feedAll [] chunks = ([encodePacket type id body], []) :=
    feedAll_completes type id body hsz chunks [] (by simpa using hjoin) hne
  have h2 : feedAll [] [encodePacket type id body] =
      ([encodePacket type id body], []) :=
    feedAll_completes type id body hsz [encodePacket type id body] []
      (by simp) hne
  rw [h1, h2]
  exact ⟨rfl, rfl, rfl⟩

/-- Witness for C6: the frame `encode(0, 2, "a")` (15 bytes) fed
byte-by-byte. -/
theorem rcon_chunk_boundary_independence_witness :
    feedAll [] [[11], [0], [0], [0], [2], [0], [0], [0], [0], [0], [0], [0], [97], [0], [0]] =
      ([encodePacket 0 2 [97]], []) ∧
    feedAll [] [[11], [0], [0], [0], [2], [0], [0], [0], [0], [0], [0], [0], [97], [0], [0]] =
      feedAll [] [encodePacket 0 2 [97]] ∧
    (feedAll [] [[11], [0], [0], [0], [2], [0], [0], [0], [0], [0], [0], [0], [97], [0], [0]]).1.map
        decodePacket = [decodePacket (encodePacket 0 2 [97])] :=
  rcon_chunk_boundary_independence 0 2 [97]
    [[11], [0], [0], [0], [2], [0], [0], [0], [0], [0], [0], [0], [97], [0], [0]]
    (by norm_num) (by decide)

/-! ### FIFO correlation with chat noninterference -/

theorem processPackets_nil (st : RconState) : processPackets st [] = .ok (st, []) := rfl

theorem processPackets_cons (st : RconState) (p : DecodedPacket)
    (ps : List DecodedPacket) :
    processPackets st (p :: ps) =
      match processPacket st p with
      | .error e => .error e
      | .ok r1 =>
        match processPackets r1.1 ps with
        | .error e => .error e
        | .ok r2 => .ok (r2.1, r1.2 ++ r2.2) := rfl

theorem processPackets_cons_of_ok {st st1 st2 : RconState} {p : DecodedPacket}
    {ps : List DecodedPacket} {e1 e2 : List Event}
    (h1 : processPacket st p = .ok (st1, e1))
    (h2 : processPackets st1 ps = .ok (st2, e2)) :
    processPackets st (p :: ps) = .ok (st2, e1 ++ e2) := by
  rw [processPackets_cons]
  simp [h1, h2]

theorem processPackets_cons_inv {st st2 : RconState} {p : DecodedPacket}
    {ps : List DecodedPacket} {evs : List Event}
    (h : processPackets st (p :: ps) = .ok (st2, evs)) :
    ∃ st1 e1 e2, processPacket st p = .ok (st1, e1) ∧
      processPackets st1 ps = .ok (st2, e2) ∧ evs = e1 ++ e2 := by
  rw [processPackets_cons] at h
  split at h
  next e heq1 => exact absurd h (by simp)
  next ra heq1 =>
    split at h
    next e2 heq2 => exact absurd h (by simp)
    next rb heq2 =>
      have h12 : rb.1 = st2 ∧ ra.2 ++ rb.2 = evs := by
        simpa using h
      obtain ⟨ha, hb⟩ := h12
      exact ⟨ra.1, ra.2, rb.2, by rw [heq1], by rw [heq2, ← ha], hb.symm⟩

theorem processPackets_append {st st1 st2 : RconState} {l1 l2 : List DecodedPacket}
    {e1 e2 : List Event}
    (h1 : processPackets st l1 = .ok (st1, e1))
    (h2 : processPackets st1 l2 = .ok (st2, e2)) :
    processPackets st (l1 ++ l2) = .ok (st2, e1 ++ e2) := by
  induction l1 generalizing st e1 with
  | nil =>
    rw [processPackets_nil] at h1
    have h12 : st = st1 ∧ [] = e1 := by
      simpa using h1
    obtain ⟨ha, hb⟩ := h12
    subst ha
    rw [← hb]
    simpa using h2
  | cons p ps ih =>
    obtain ⟨sta, ea, eb, hp, hrest, hevs⟩ := processPackets_cons_inv h1
    subst hevs
    have hx := ih hrest
    rw [List.cons_append, List.append_assoc]
    exact processPackets_cons_of_ok hp hx

/-- A `ChatValue` frame is emitted immediately and leaves the whole state —
in particular the callback queue and the fragment accumulator — untouched. -/
theorem processPacket_chat (st : RconState) (p : DecodedPacket) (h : p.type = 1) :
    processPacket st p = .ok (st, [.chatEv p.body]) := by
  unfold processPacket
  rw [h]
  norm_num

theorem applyCompletion_no_chat (c : Completion) (v : JsValue) (st : RconState) :
    ((applyCompletion c v st).2).filterMap chatBody = [] := by
  cases c with
  | noop => rfl
  | authCb =>
    by_cases hv : jsId v = some (-1)
    · simp [applyCompletion, hv, chatBody]
    · simp [applyCompletion, hv, chatBody]
  | cmdCb => rfl

/-- Response-typed frames never produce chat events. -/
theorem processPacket_resp_no_chat (st st' : RconState) (p : DecodedPacket)
    (evs : List Event) (ht : p.type = 0 ∨ p.type = 2)
    (h : processPacket st p = .ok (st', evs)) :
    evs.filterMap chatBody = [] := by
  unfold processPacket at h
  rw [if_pos ht] at h
  by_cases h1 : p.id = 1
  · rw [if_pos h1] at h
    injection h with hpair
    injection hpair with hs he
    subst he
    rfl
  · rw [if_neg h1] at h
    by_cases h2 : p.id = 2
    · rw [if_pos h2] at h
      cases hq : st.responseCallbackQueue with
      | nil =>
        rw [hq] at h
        exact absurd h (by simp)
      | cons c0 qr =>
        rw [hq] at h
        injection h with hpair
        injection hpair with hs he
        subst he
        exact applyCompletion_no_chat c0 _ _
    · rw [if_neg h2] at h
      injection h with hpair
      injection hpair with hs he
      subst he
      rfl

/-- Chat-noninterference: processing any interleaving of a response frame
sequence with chat frames reaches the same final state as processing the
response frames alone, emits the same response events, and emits exactly the
chat bodies in order. -/
theorem processPackets_interleave {rs cs t : List DecodedPacket}
    (hil : Interleave rs cs t) :
    (∀ c ∈ cs, c.type = 1) → (∀ r ∈ rs, r.type = 0 ∨ r.type = 2) →
    ∀ st st' evs, processPackets st rs = .ok (st', evs) →
      ∃ evs2, processPackets st t = .ok (st', evs2) ∧
        evs2.filterMap respBody = evs.filterMap respBody ∧
        evs2.filterMap chatBody = cs.map (fun c => c.body) := by
  induction hil with
  | nil =>
    intro _ _ st st' evs h
    rw [processPackets_nil] at h
    have h12 : st = st' ∧ [] = evs := by
      simpa using h
    obtain ⟨ha, hb⟩ := h12
    subst ha
    rw [← hb]
    exact ⟨[], rfl, rfl, rfl⟩
  | @left a l r t hsub ih =>
    intro hcs hrs st st' evs h
    obtain ⟨st1, e1, e2, hp, hrest, hevs⟩ := processPackets_cons_inv h
    obtain ⟨evs2, ht2, hresp, hchat⟩ :=
      ih hcs (fun x hx => hrs x (List.mem_cons_of_mem a hx)) st1 st' e2 hrest
    refine ⟨e1 ++ evs2, processPackets_cons_of_ok hp ht2, ?_, ?_⟩
    · rw [hevs]
      simp [List.filterMap_append, hresp]
    · have hno : e1.filterMap chatBody = [] :=
        processPacket_resp_no_chat st st1 a e1 (hrs a (List.mem_cons_self a l)) hp
      simp [List.filterMap_append, hno, hchat]
  | @right a l r t hsub ih =>
    intro hcs hrs st st' evs h
    have ha : a.type = 1 := hcs a (List.mem_cons_self a r)
    obtain ⟨evs2, ht2, hresp, hchat⟩ :=
      ih (fun x hx => hcs x (List.mem_cons_of_mem a hx)) hrs st st' evs h
    refine ⟨.chatEv a.body :: evs2, processPackets_cons_of_ok (processPacket_chat st a ha) ht2, ?_, ?_⟩
    · simpa [respBody] using hresp
    · simp [chatBody, hchat]

/-- Processing a run of `MID` response fragments appends them, in order, to
the fragment accumulator and emits nothing. -/
theorem processPackets_mids (bodies : List (List Byte)) :
    ∀ st : RconState, processPackets st (bodies.map midFrame) =
      .ok ({ st with incomingResponse := st.incomingResponse ++ bodies.map midFrame },
        []) := by
  induction bodies with
  | nil =>
    intro st
    simp [processPackets_nil]
  | cons b bs ih =>
    intro st
    have hp : processPacket st (midFrame b) =
        .ok ({ st with incomingResponse := st.incomingResponse ++ [midFrame b] }, []) := by
      unfold processPacket midFrame
      norm_num
    rw [List.map_cons]
    rw [processPackets_cons_of_ok hp (ih _)]
    simp [List.append_assoc]

/-- Processing the `END` frame with a command completion at the queue head
pops it and emits `response` with the joined accumulator bodies. -/
theorem processPacket_end_cmd (st : RconState) (rest : List Completion)
    (hq : st.responseCallbackQueue = .cmdCb :: rest) :
    processPacket st endFrame =
      .ok ({ st with responseCallbackQueue := rest, incomingResponse := [] },
        [.responseEv (.str (joinBodies (st.incomingResponse.map (fun q => q.body))))]) := by
  unfold processPacket endFrame
  norm_num
  rw [hq]
  rfl

/-- One full logical response: `MID` fragments then the `END` marker retire
exactly the head completion with the joined fragment bodies. -/
theorem processPackets_one_response (frags : List (List Byte)) (st : RconState)
    (rest : List Completion) (hacc : st.incomingResponse = [])
    (hq : st.responseCallbackQueue = .cmdCb :: rest) :
    processPackets st (frags.map midFrame ++ [endFrame]) =
      .ok ({ st with responseCallbackQueue := rest, incomingResponse := [] },
        [.responseEv (.str (joinBodies frags))]) := by
  have h1 := processPackets_mids frags st
  have hq1 : ({ st with incomingResponse := st.incomingResponse ++ frags.map midFrame } :
      RconState).responseCallbackQueue = .cmdCb :: rest := hq
  have h2 := processPacket_end_cmd
    { st with incomingResponse := st.incomingResponse ++ frags.map midFrame } rest hq1
  have hbodies : (({ st with incomingResponse := st.incomingResponse ++ frags.map midFrame } :
      RconState).incomingResponse).map (fun q => q.body) = frags := by
    rw [hacc]
    simp only [List.nil_append, List.map_map]
    have hcomp : ((fun (q : DecodedPacket) => q.body) ∘ midFrame) = id :=
      funext (fun b => rfl)
    rw [hcomp, List.map_id]
  rw [hbodies] at h2
  have h3 := processPackets_cons_of_ok h2 (processPackets_nil _)
  have h4 := processPackets_append h1 h3
  simpa using h4

/-- Two logical responses in sequence retire the first two completions in
FIFO order, each with its own joined bodies. -/
theorem processPackets_two_responses (aFrags bFrags : List (List Byte))
    (st : RconState) (rest : List Completion) (hacc : st.incomingResponse = [])
    (hq : st.responseCallbackQueue = .cmdCb :: .cmdCb :: rest) :
    processPackets st
        ((aFrags.map midFrame ++ [endFrame]) ++ (bFrags.map midFrame ++ [endFrame])) =
      .ok ({ st with responseCallbackQueue := rest, incomingResponse := [] },
        [.responseEv (.str (joinBodies aFrags)), .responseEv (.str (joinBodies bFrags))]) := by
  have h1 := processPackets_one_response aFrags st (.cmdCb :: rest) hacc hq
  have h2 := processPackets_one_response bFrags
    { st with responseCallbackQueue := Completion.cmdCb :: rest, incomingResponse := [] }
    rest rfl rfl
  have h3 := processPackets_append h1 h2
  simpa using h3

/-- The fully initialized, authenticated, idle client state: connected,
auto-reconnect armed, all buffers and queues empty. -/
def readyState : RconState :=
  { incomingData := []
    incomingResponse := []
    responseCallbackQueue := []
    connected := true
    autoReconnect := true }

/-- Claim C5 — FIFO correlation with chat noninterference: after issuing
commands A then B from the ready state, receiving the `Mid` fragments of A,
the `End` of A, the `Mid` fragments of B and the `End` of B — with
`ChatValue` frames interleaved at arbitrary points — delivers the joined
body of A to the first queued completion and the joined body of B to the
second, emits exactly the chat
bodies in order, and returns the client to the ready state (queue drained,
accumulator reset): chat frames never enter or disturb the pending queue or
the fragment accumulator. -/
theorem rcon_fifo_correlation_chat_noninterference
    (bodyA bodyB : List Byte) (aFrags bFrags : List (List Byte))
    (chats frames : List DecodedPacket)
    (hA : bodyA.length + 14 ≤ 4096) (hB : bodyB.length + 14 ≤ 4096)
    (hchat : ∀ c ∈ chats, c.type = 1)
    (hil : Interleave
      ((aFrags.map midFrame ++ [endFrame]) ++ (bFrags.map midFrame ++ [endFrame]))
      chats frames) :
    ∃ evs,
      processPackets
          (write 4096 (write 4096 readyState true 2 bodyA).state true 2 bodyB).state
          frames =
        .ok (readyState, evs) ∧
      evs.filterMap respBody = [joinBodies aFrags, joinBodies bFrags] ∧
      evs.filterMap chatBody = chats.map (fun c => c.body) := by
  have hAn : ¬(4096 : Int) < ((encodePacket 2 1 bodyA).length : Int) := by
    rw [encodePacket_length]
    push_cast
    omega
  have hBn : ¬(4096 : Int) < ((encodePacket 2 1 bodyB).length : Int) := by
    rw [encodePacket_length]
    push_cast
    omega
  have hst : (write 4096 (write 4096 readyState true 2 bodyA).state true 2 bodyB).state =
      { readyState with responseCallbackQueue := [.cmdCb, .cmdCb] } := by
    simp [write, readyState, hAn, hBn]
  have hrs : ∀ r ∈ (aFrags.map midFrame ++ [endFrame]) ++
      (bFrags.map midFrame ++ [endFrame]), r.type = 0 ∨ r.type = 2 := by
    intro r hr
    left
    rcases List.mem_append.mp hr with hr1 | hr1 <;>
      rcases List.mem_append.mp hr1 with hr2 | hr2
    · obtain ⟨b, -, hbr⟩ := List.mem_map.mp hr2
      rw [← hbr]
      rfl
    · rw [List.mem_singleton.mp hr2]
      rfl
    · obtain ⟨b, -, hbr⟩ := List.mem_map.mp hr2
      rw [← hbr]
      rfl
    · rw [List.mem_singleton.mp hr2]
      rfl
  have hresp := processPackets_two_responses aFrags bFrags
    { readyState with responseCallbackQueue := [.cmdCb, .cmdCb] } [] rfl rfl
  obtain ⟨evs2, ht2, hrespf, hchatf⟩ :=
    processPackets_interleave hil hchat hrs _ _ _ hresp
  rw [hst]
  refine ⟨evs2, ht2, ?_, hchatf⟩
  rw [hrespf]
  rfl

/-- Witness for C5: commands `"a"`, `"b"`; A responds with fragments
`"foo"`, `"qux"`, B with `"bar"`; one chat frame `"c"` arrives first. -/
theorem rcon_fifo_correlation_chat_noninterference_witness :
    ∃ evs,
      processPackets
          (write 4096 (write 4096 readyState true 2 [97]).state true 2 [98]).state
          [⟨10, 7, 1, [99]⟩,
            midFrame [102, 111, 111], midFrame [113, 117, 120], endFrame,
            midFrame [98, 97, 114], endFrame] =
        .ok (readyState, evs) ∧
      evs.filterMap respBody =
        [joinBodies [[102, 111, 111], [113, 117, 120]], joinBodies [[98, 97, 114]]] ∧
      evs.filterMap chatBody = [[99]] :=
  rcon_fifo_correlation_chat_noninterference [97] [98]
    [[102, 111, 111], [113, 117, 120]] [[98, 97, 114]]
    [⟨10, 7, 1, [99]⟩]
    [⟨10, 7, 1, [99]⟩,
      midFrame [102, 111, 111], midFrame [113, 117, 120], endFrame,
      midFrame [98, 97, 114], endFrame]
    (by norm_num) (by norm_num) (by decide)
    (.right (.left (.left (.left (.left (.left .nil))))))

end SquadRcon
